import Mathlib

/-!
Verification of the Catalyzer Catalog Store specification.

The Catalog Store backend (Catalyzer::Cabinet) is present in the repository
only through its README, documentation and example files; its implementation
sources are not part of the snapshot.  The definitions in the codec and store
sections below are therefore modelled from the specification text (frontmatter
codec, tag index, full-text index, orchestrator).  The final section embeds
the TypeScript sources that are present in the snapshot: the `DuckDBService`
class and the data-import page of the Workdesk application.
-/

namespace Catalyzer

/-! ## Frontmatter codec -/

/-- Character-list representation of raw document text handled by the codec. -/
abbrev Str := List Char

/-- Modelled from the spec: the value of one frontmatter field.  The cabinet
implementation is missing from the snapshot; the spec recognizes strings,
string lists and ISO-8601 timestamps, and keeps every other field as a
pass-through JSON value. -/
inductive FmValue where
  | str (s : Str)
  | strList (xs : List Str)
  | timestamp (s : Str)
  | jsonVal (j : Str)
  deriving DecidableEq

/-- Modelled from the spec: the character admissible at position `i` of an
ISO-8601 timestamp of the shape `YYYY-MM-DDTHH:MM:SSZ`. -/
def tsChar (i : Nat) (c : Char) : Bool :=
  if i == 4 || i == 7 then c == '-'
  else if i == 10 then c == 'T'
  else if i == 13 || i == 16 then c == ':'
  else if i == 19 then c == 'Z'
  else c.isDigit

/-- Modelled from the spec: recognizer for ISO-8601 timestamps of the shape
`YYYY-MM-DDTHH:MM:SSZ`. -/
def isTimestampStr (s : Str) : Bool :=
  s.length == 20 && (List.range 20).all (fun i =>
    match s[i]? with
    | some c => tsChar i c
    | none => false)

/-- Modelled from the spec: render one frontmatter value on a header line. -/
def encodeValue : FmValue → Str
  | .str s => s
  | .strList xs => '[' :: (List.intercalate [','] xs ++ [']'])
  | .timestamp s => s
  | .jsonVal j => j

/-- Modelled from the spec: read back the elements of a rendered string list. -/
def decodeList (inner : Str) : List Str :=
  if inner = [] then [] else inner.splitOn ','

/-- Modelled from the spec: classify and read back one rendered value.  A
value opening with a brace is kept as a pass-through JSON value, a bracketed
value is a string list, a timestamp-shaped value is a timestamp, and anything
else is a plain string. -/
def decodeValue (v : Str) : FmValue :=
  if v.head? = some '{' then .jsonVal v
  else if v.head? = some '[' ∧ v.getLast? = some ']' then
    .strList (decodeList (v.drop 1).dropLast)
  else if isTimestampStr v then .timestamp v
  else .str v

/-- Modelled from the spec: render one frontmatter field as `key: value`. -/
def encodeField (kv : Str × FmValue) : Str :=
  kv.1 ++ ':' :: ' ' :: encodeValue kv.2

/-- Split a header line at the first colon. -/
def breakAtColon : Str → Option (Str × Str)
  | [] => none
  | c :: rest =>
    if c = ':' then some ([], rest)
    else
      match breakAtColon rest with
      | none => none
      | some kv => some (c :: kv.1, kv.2)

/-- Drop the single blank that separates the colon from the rendered value. -/
def dropOneSpace : Str → Str
  | ' ' :: rest => rest
  | s => s

/-- Modelled from the spec: read back one `key: value` header line; a line
without a colon is not a flat key/value pair and is rejected. -/
def decodeField (line : Str) : Option (Str × FmValue) :=
  match breakAtColon line with
  | none => none
  | some kv => some (kv.1, decodeValue (dropOneSpace kv.2))

/-- The `---` delimiter line that opens and closes the frontmatter block. -/
def fmDelim : Str := ['-', '-', '-']

/-- Render the frontmatter fields, each on its own line, before `tail`. -/
def serializeFields : List (Str × FmValue) → Str → Str
  | [], tail => tail
  | kv :: rest, tail => encodeField kv ++ '\n' :: serializeFields rest tail

/-- Modelled from the spec: `serialize(frontmatter_fields, body_text)`
produces the raw document: a `---` line, one line per field, a closing `---`
line, then the body verbatim. -/
def serialize (f : List (Str × FmValue)) (b : Str) : Str :=
  fmDelim ++ '\n' :: serializeFields f (fmDelim ++ '\n' :: b)

/-- Modelled from the spec: consume header lines until the closing `---`;
the remaining lines are the body.  A missing terminator or a non key/value
line is a malformed document. -/
def parseFields : List Str → List (Str × FmValue) →
    Option (List (Str × FmValue) × Str)
  | [], _ => none
  | line :: rest, acc =>
    if line = fmDelim then some (acc.reverse, List.intercalate ['\n'] rest)
    else
      match decodeField line with
      | none => none
      | some kv => parseFields rest (kv :: acc)

/-- Modelled from the spec: `parse(raw_bytes)` fails with a malformed-document
outcome (here `none`) when the header block is absent or unterminated, and
otherwise returns the frontmatter fields and the body text. -/
def parse (raw : Str) : Option (List (Str × FmValue) × Str) :=
  match raw.splitOn '\n' with
  | [] => none
  | first :: rest => if first = fmDelim then parseFields rest [] else none

/-- Modelled from the spec: a usable frontmatter key is nonempty and free of
colons and line breaks. -/
def wellFormedKey (k : Str) : Bool :=
  decide (k ≠ [] ∧ ':' ∉ k ∧ '\n' ∉ k)

/-- Modelled from the spec: a well-formed value renders on a single header
line and renders unambiguously with respect to the value classifier. -/
def wellFormedValue : FmValue → Bool
  | .str s => decide (s.head? ≠ some '{' ∧ s.head? ≠ some '[' ∧ '\n' ∉ s)
      && !isTimestampStr s
  | .strList xs => decide (∀ e ∈ xs, e ≠ [] ∧ ',' ∉ e ∧ '\n' ∉ e)
  | .timestamp s => isTimestampStr s
  | .jsonVal j => decide (j.head? = some '{' ∧ '\n' ∉ j)

/-- Modelled from the spec: a well-formed frontmatter map has pairwise
distinct keys and only well-formed keys and values. -/
def wellFormedFm (f : List (Str × FmValue)) : Bool :=
  decide ((f.map Prod.fst).Nodup)
    && f.all (fun kv => wellFormedKey kv.1 && wellFormedValue kv.2)

/-! ## Round-trip law for the codec -/

theorem tsChar_facts (i : Nat) (c : Char) (h : tsChar i c = true) :
    c ≠ '\n' ∧ c ≠ '{' ∧ c ≠ '[' := by
  unfold tsChar at h
  split_ifs at h
  · have hc : c = '-' := by exact_mod_cast beq_iff_eq.mp h
    subst hc; refine ⟨by decide, by decide, by decide⟩
  · have hc : c = 'T' := by exact_mod_cast beq_iff_eq.mp h
    subst hc; refine ⟨by decide, by decide, by decide⟩
  · have hc : c = ':' := by exact_mod_cast beq_iff_eq.mp h
    subst hc; refine ⟨by decide, by decide, by decide⟩
  · have hc : c = 'Z' := by exact_mod_cast beq_iff_eq.mp h
    subst hc; refine ⟨by decide, by decide, by decide⟩
  · refine ⟨?_, ?_, ?_⟩ <;> rintro rfl <;> revert h <;> decide

theorem isTimestampStr_all {s : Str} (h : isTimestampStr s = true) :
    s.length = 20 ∧ ∀ (i : Nat) (hi : i < s.length), tsChar i s[i] = true := by
  rw [isTimestampStr, Bool.and_eq_true] at h
  have hlen : s.length = 20 := by exact_mod_cast beq_iff_eq.mp h.1
  refine ⟨hlen, ?_⟩
  intro i hi
  have hmem : i ∈ List.range 20 := List.mem_range.mpr (hlen ▸ hi)
  have := List.all_eq_true.mp h.2 i hmem
  rwa [List.getElem?_eq_getElem hi] at this

theorem isTimestampStr_facts {s : Str} (h : isTimestampStr s = true) :
    '\n' ∉ s ∧ s.head? ≠ some '{' ∧ s.head? ≠ some '[' := by
  obtain ⟨hlen, hall⟩ := isTimestampStr_all h
  constructor
  · intro hm
    obtain ⟨i, hi, hei⟩ := List.mem_iff_getElem.mp hm
    exact (tsChar_facts i s[i] (hall i hi)).1 (by rw [hei])
  · cases s with
    | nil => simp at hlen
    | cons a t =>
      have h0 : tsChar 0 a = true := hall 0 (by simp)
      have := tsChar_facts 0 a h0
      constructor
      · intro he
        exact this.2.1 (by simpa using he)
      · intro he
        exact this.2.2 (by simpa using he)

theorem intercalate_cons_cons (sep a b : Str) (t : List Str) :
    List.intercalate sep (a :: b :: t) = a ++ sep ++ List.intercalate sep (b :: t) := by
  rw [List.intercalate, List.intercalate, List.intersperse_cons_cons,
    List.flatten_cons, List.flatten_cons, List.append_assoc]

theorem mem_intercalate_comma {c : Char} {xs : List Str}
    (h : c ∈ List.intercalate [','] xs) : c = ',' ∨ ∃ e ∈ xs, c ∈ e := by
  induction xs with
  | nil => simp [List.intercalate] at h
  | cons a t ih =>
    cases t with
    | nil =>
      refine Or.inr ⟨a, by simp, ?_⟩
      simpa [List.intercalate] using h
    | cons b t2 =>
      rw [intercalate_cons_cons] at h
      rcases List.mem_append.mp h with h1 | h2
      · rcases List.mem_append.mp h1 with ha | hc
        · exact Or.inr ⟨a, by simp, ha⟩
        · exact Or.inl (by simpa using hc)
      · rcases ih h2 with h3 | ⟨e, he, hce⟩
        · exact Or.inl h3
        · exact Or.inr ⟨e, by simp [he], hce⟩

theorem decodeList_intercalate {xs : List Str}
    (h : ∀ e ∈ xs, e ≠ [] ∧ ',' ∉ e ∧ '\n' ∉ e) :
    decodeList (List.intercalate [','] xs) = xs := by
  cases xs with
  | nil => simp [List.intercalate, decodeList]
  | cons a t =>
    have hcomma : ∀ l ∈ a :: t, ',' ∉ l := fun l hl => (h l hl).2.1
    have hne : (a :: t : List Str) ≠ [] := by simp
    have hsplit := List.splitOn_intercalate (a :: t) ',' hcomma hne
    have hmid : List.intercalate [','] (a :: t) ≠ [] := by
      intro hnil
      rw [hnil] at hsplit
      simp at hsplit
      exact (h a (by simp)).1 hsplit.1
    rw [decodeList, if_neg hmid, hsplit]

theorem encodeValue_no_newline {v : FmValue} (h : wellFormedValue v = true) :
    '\n' ∉ encodeValue v := by
  cases v with
  | str s =>
    rw [wellFormedValue, Bool.and_eq_true] at h
    exact (of_decide_eq_true h.1).2.2
  | strList xs =>
    have hx := of_decide_eq_true (by simpa [wellFormedValue] using h)
    intro hm
    rw [encodeValue] at hm
    rcases List.mem_cons.mp hm with h1 | h2
    · simp at h1
    · rcases List.mem_append.mp h2 with h3 | h4
      · rcases mem_intercalate_comma h3 with h5 | ⟨e, he, hce⟩
        · simp at h5
        · exact (hx e he).2.2 hce
      · simp at h4
  | timestamp s =>
    rw [wellFormedValue] at h
    exact (isTimestampStr_facts h).1
  | jsonVal j =>
    rw [wellFormedValue] at h
    exact (of_decide_eq_true h).2

theorem decodeValue_encodeValue {v : FmValue} (h : wellFormedValue v = true) :
    decodeValue (encodeValue v) = v := by
  cases v with
  | str s =>
    rw [wellFormedValue, Bool.and_eq_true] at h
    obtain ⟨h1, h2, _⟩ := of_decide_eq_true h.1
    have hts : isTimestampStr s = false := by
      have := h.2
      rwa [Bool.not_eq_eq_eq_not, Bool.not_true] at this
    rw [encodeValue, decodeValue, if_neg h1, if_neg (fun hc => h2 hc.1), hts]
    simp
  | strList xs =>
    have hx := of_decide_eq_true (by simpa [wellFormedValue] using h)
    rw [encodeValue, decodeValue]
    rw [if_neg (by simp)]
    rw [if_pos ⟨by simp, by rw [← List.cons_append]; exact List.getLast?_concat _⟩]
    rw [List.drop_one, List.tail_cons, List.dropLast_concat]
    rw [decodeList_intercalate hx]
  | timestamp s =>
    rw [wellFormedValue] at h
    obtain ⟨_, h2, h3⟩ := isTimestampStr_facts h
    rw [encodeValue, decodeValue, if_neg h2, if_neg (fun hc => h3 hc.1), h]
    simp
  | jsonVal j =>
    rw [wellFormedValue] at h
    obtain ⟨h1, _⟩ := of_decide_eq_true h
    rw [encodeValue, decodeValue, if_pos h1]

theorem breakAtColon_append (k v : Str) (hk : ':' ∉ k) :
    breakAtColon (k ++ ':' :: v) = some (k, v) := by
  induction k with
  | nil => simp [breakAtColon]
  | cons c rest ih =>
    have hc : c ≠ ':' := fun hc => hk (hc ▸ List.mem_cons_self c rest)
    have hrest : ':' ∉ rest := fun hm => hk (List.mem_cons_of_mem c hm)
    rw [List.cons_append, breakAtColon, if_neg hc, ih hrest]

theorem decodeField_encodeField {kv : Str × FmValue}
    (hk : wellFormedKey kv.1 = true) (hv : wellFormedValue kv.2 = true) :
    decodeField (encodeField kv) = some kv := by
  obtain ⟨k, v⟩ := kv
  obtain ⟨_, hk2, _⟩ := of_decide_eq_true hk
  rw [encodeField]
  rw [decodeField, breakAtColon_append k (' ' :: encodeValue v) hk2]
  show some (k, decodeValue (dropOneSpace (' ' :: encodeValue v))) = some (k, v)
  rw [dropOneSpace, decodeValue_encodeValue hv]

theorem encodeField_no_newline {kv : Str × FmValue}
    (hk : wellFormedKey kv.1 = true) (hv : wellFormedValue kv.2 = true) :
    '\n' ∉ encodeField kv := by
  obtain ⟨_, _, hk3⟩ := of_decide_eq_true hk
  intro hm
  rw [encodeField] at hm
  rcases List.mem_append.mp hm with h1 | h2
  · exact hk3 h1
  · rcases List.mem_cons.mp h2 with h3 | h4
    · simp at h3
    · rcases List.mem_cons.mp h4 with h5 | h6
      · simp at h5
      · exact encodeValue_no_newline hv h6

theorem encodeField_ne_delim (kv : Str × FmValue) : encodeField kv ≠ fmDelim := by
  intro he
  have hcolon : ':' ∈ encodeField kv := by
    rw [encodeField]
    exact List.mem_append_right _ (List.mem_cons_self _ _)
  rw [he] at hcolon
  simp [fmDelim] at hcolon

theorem splitOn_newline_append (xs as : Str) (h : '\n' ∉ xs) :
    (xs ++ '\n' :: as).splitOn '\n' = xs :: as.splitOn '\n' := by
  have h2 : ∀ x ∈ xs, ¬ ((x == '\n') = true) := by
    intro x hx hb
    exact h ((beq_iff_eq.mp hb : x = '\n') ▸ hx)
  unfold List.splitOn
  exact List.splitOnP_first _ _ h2 '\n' (by simp) as

theorem splitOn_serializeFields (f : List (Str × FmValue)) (tail : Str)
    (h : ∀ kv ∈ f, '\n' ∉ encodeField kv) :
    (serializeFields f tail).splitOn '\n' =
      f.map encodeField ++ tail.splitOn '\n' := by
  induction f with
  | nil => simp [serializeFields]
  | cons kv rest ih =>
    rw [serializeFields, splitOn_newline_append _ _ (h kv (by simp))]
    rw [ih (fun x hx => h x (List.mem_cons_of_mem kv hx))]
    simp

theorem parseFields_append (f : List (Str × FmValue)) (rest : List Str)
    (h : ∀ kv ∈ f, wellFormedKey kv.1 = true ∧ wellFormedValue kv.2 = true) :
    ∀ acc, parseFields (f.map encodeField ++ fmDelim :: rest) acc =
      some (acc.reverse ++ f, List.intercalate ['\n'] rest) := by
  induction f with
  | nil => intro acc; simp [parseFields]
  | cons kv f2 ih =>
    intro acc
    rw [List.map_cons, List.cons_append, parseFields,
      if_neg (encodeField_ne_delim kv)]
    obtain ⟨hk, hv⟩ := h kv (by simp)
    rw [decodeField_encodeField hk hv]
    show parseFields (List.map encodeField f2 ++ fmDelim :: rest) (kv :: acc) =
      some (acc.reverse ++ kv :: f2, List.intercalate ['\n'] rest)
    rw [ih (fun x hx => h x (List.mem_cons_of_mem kv hx)) (kv :: acc)]
    simp

/-- C1: for every well-formed frontmatter map `f` and every body `b`, parsing
the raw document produced by serializing them returns exactly `(f, b)`: no
field is dropped or altered, including pass-through JSON fields. -/
theorem frontmatter_roundtrip (f : List (Str × FmValue)) (b : Str)
    (hf : wellFormedFm f = true) : parse (serialize f b) = some (f, b) := by
  rw [wellFormedFm, Bool.and_eq_true] at hf
  have hall : ∀ kv ∈ f, wellFormedKey kv.1 = true ∧ wellFormedValue kv.2 = true := by
    intro kv hkv
    have h2 := List.all_eq_true.mp hf.2 kv hkv
    rwa [Bool.and_eq_true] at h2
  have hnl : ∀ kv ∈ f, '\n' ∉ encodeField kv := fun kv hkv =>
    encodeField_no_newline (hall kv hkv).1 (hall kv hkv).2
  rw [serialize, parse]
  rw [splitOn_newline_append fmDelim _ (by decide)]
  rw [splitOn_serializeFields f _ hnl]
  rw [splitOn_newline_append fmDelim _ (by decide)]
  show (if fmDelim = fmDelim then
      parseFields (List.map encodeField f ++ fmDelim :: List.splitOn '\n' b) []
    else none) = some (f, b)
  rw [if_pos rfl]
  rw [parseFields_append f _ hall []]
  rw [List.intercalate_splitOn b '\n']
  simp

/-- Sample frontmatter map used to witness the round-trip law; it mirrors the
example catalog document of the repository, plus a pass-through JSON field. -/
def sampleFm : List (Str × FmValue) :=
  [("title".toList, .str "data1.csv".toList),
   ("author".toList, .str "b@contoso.com".toList),
   ("url".toList, .str "https://contoso.com/data1.md".toList),
   ("tags".toList, .strList ["sample".toList, "csv".toList]),
   ("locations".toList, .strList ["https://contoso.com/data1.csv".toList]),
   ("created_at".toList, .timestamp "2025-01-01T12:34:56Z".toList),
   ("updated_at".toList, .timestamp "2025-05-20T12:34:56Z".toList),
   ("extra".toList, .jsonVal "\x7b\"size\": 12\x7d".toList)]

/-- Sample body used to witness the round-trip law. -/
def sampleBody : Str := "# data1.csv\n\nThis data is...".toList

/-- Witness for C1 at the sample document. -/
theorem frontmatter_roundtrip_witness :
    wellFormedFm sampleFm = true ∧
      parse (serialize sampleFm sampleBody) = some (sampleFm, sampleBody) :=
  ⟨by decide, frontmatter_roundtrip sampleFm sampleBody (by decide)⟩

/-! ## Catalog record model -/

/-- Key of the `title` attribute. -/
def titleKey : Str := "title".toList

/-- Key of the `author` attribute. -/
def authorKey : Str := "author".toList

/-- Key of the `url` attribute. -/
def urlKey : Str := "url".toList

/-- Key of the `tags` attribute. -/
def tagsKey : Str := "tags".toList

/-- Key of the `locations` attribute. -/
def locationsKey : Str := "locations".toList

/-- Key of the `created_at` attribute. -/
def createdAtKey : Str := "created_at".toList

/-- Key of the `updated_at` attribute. -/
def updatedAtKey : Str := "updated_at".toList

/-- Association-list lookup, used for frontmatter maps and index buckets. -/
def alookup {α β : Type} [DecidableEq α] : List (α × β) → α → Option β
  | [], _ => none
  | kv :: rest, k => if kv.1 = k then some kv.2 else alookup rest k

/-- Modelled from the spec: extract a string-typed attribute from a parsed
frontmatter map (the cabinet implementation is absent from the snapshot). -/
def getStrFm (f : List (Str × FmValue)) (k : Str) : Option Str :=
  match alookup f k with
  | some (.str s) => some s
  | _ => none

/-- Modelled from the spec: extract a string-list attribute. -/
def getListFm (f : List (Str × FmValue)) (k : Str) : Option (List Str) :=
  match alookup f k with
  | some (.strList xs) => some xs
  | _ => none

/-- Modelled from the spec: extract a timestamp attribute. -/
def getTsFm (f : List (Str × FmValue)) (k : Str) : Option Str :=
  match alookup f k with
  | some (.timestamp s) => some s
  | _ => none

/-- Modelled from the spec: the canonical in-memory representation of one
catalog entry: typed attributes, the freeform body, and the open `properties`
map holding the complete original frontmatter. -/
structure CatalogRecord where
  title : Option Str
  author : Option Str
  url : Option Str
  tags : List Str
  locations : List Str
  created_at : Option Str
  updated_at : Option Str
  body : Str
  properties : List (Str × FmValue)
  deriving DecidableEq

/-- Modelled from the spec: derive a catalog record from a parsed document,
promoting the recognized frontmatter fields to typed attributes and keeping
the whole frontmatter in `properties`. -/
def recordOfDoc (f : List (Str × FmValue)) (b : Str) : CatalogRecord :=
  { title := getStrFm f titleKey
    author := getStrFm f authorKey
    url := getStrFm f urlKey
    tags := (getListFm f tagsKey).getD []
    locations := (getListFm f locationsKey).getD []
    created_at := getTsFm f createdAtKey
    updated_at := getTsFm f updatedAtKey
    body := b
    properties := f }

theorem getStrFm_eq_some (f : List (Str × FmValue)) (k : Str) (s : Str) :
    getStrFm f k = some s ↔ alookup f k = some (.str s) := by
  rw [getStrFm]
  cases h : alookup f k with
  | none => simp
  | some v => cases v <;> simp

theorem getListFm_eq_some (f : List (Str × FmValue)) (k : Str) (xs : List Str) :
    getListFm f k = some xs ↔ alookup f k = some (.strList xs) := by
  rw [getListFm]
  cases h : alookup f k with
  | none => simp
  | some v => cases v <;> simp

theorem getTsFm_eq_some (f : List (Str × FmValue)) (k : Str) (s : Str) :
    getTsFm f k = some s ↔ alookup f k = some (.timestamp s) := by
  rw [getTsFm]
  cases h : alookup f k with
  | none => simp
  | some v => cases v <;> simp

/-- C8: for a record produced from a parsed document, every typed attribute
present in the source frontmatter equals the corresponding entry of the
record's `properties` map, and every frontmatter field (recognized or not)
is preserved in `properties`. -/
theorem record_typed_view_matches_properties (f : List (Str × FmValue)) (b : Str) :
    (∀ kv ∈ f, kv ∈ (recordOfDoc f b).properties) ∧
    (∀ s, (recordOfDoc f b).title = some s ↔
      alookup (recordOfDoc f b).properties titleKey = some (.str s)) ∧
    (∀ s, (recordOfDoc f b).author = some s ↔
      alookup (recordOfDoc f b).properties authorKey = some (.str s)) ∧
    (∀ s, (recordOfDoc f b).url = some s ↔
      alookup (recordOfDoc f b).properties urlKey = some (.str s)) ∧
    (∀ xs, alookup (recordOfDoc f b).properties tagsKey = some (.strList xs) →
      (recordOfDoc f b).tags = xs) ∧
    (∀ xs, alookup (recordOfDoc f b).properties locationsKey = some (.strList xs) →
      (recordOfDoc f b).locations = xs) ∧
    (∀ s, (recordOfDoc f b).created_at = some s ↔
      alookup (recordOfDoc f b).properties createdAtKey = some (.timestamp s)) ∧
    (∀ s, (recordOfDoc f b).updated_at = some s ↔
      alookup (recordOfDoc f b).properties updatedAtKey = some (.timestamp s)) ∧
    (recordOfDoc f b).body = b := by
  refine ⟨fun kv hkv => hkv, fun s => ?_, fun s => ?_, fun s => ?_,
    fun xs hxs => ?_, fun xs hxs => ?_, fun s => ?_, fun s => ?_, rfl⟩
  · exact getStrFm_eq_some f titleKey s
  · exact getStrFm_eq_some f authorKey s
  · exact getStrFm_eq_some f urlKey s
  · show (getListFm f tagsKey).getD [] = xs
    rw [(getListFm_eq_some f tagsKey xs).mpr hxs]
    rfl
  · show (getListFm f locationsKey).getD [] = xs
    rw [(getListFm_eq_some f locationsKey xs).mpr hxs]
    rfl
  · exact getTsFm_eq_some f createdAtKey s
  · exact getTsFm_eq_some f updatedAtKey s

/-- Witness for C8 at the sample document: the `title` field and the `tags`
field of the typed view agree with the `properties` entries, and a
pass-through field survives in `properties`. -/
theorem record_typed_view_witness :
    (recordOfDoc sampleFm sampleBody).title = some "data1.csv".toList ∧
    (recordOfDoc sampleFm sampleBody).tags = ["sample".toList, "csv".toList] ∧
    ("extra".toList, FmValue.jsonVal "\x7b\"size\": 12\x7d".toList) ∈
      (recordOfDoc sampleFm sampleBody).properties := by
  have h := record_typed_view_matches_properties sampleFm sampleBody
  refine ⟨(h.2.1 _).mpr (by decide), h.2.2.2.2.1 _ (by decide), h.1 _ (by decide)⟩

/-! ## Inverted-index buckets -/

/-- Identifier of a stored record. -/
abbrev RecordId := Str

/-- Inverted-index buckets: a mapping from key (tag or token) to the list of
record identifiers filed under it. -/
abbrev Buckets := List (Str × List RecordId)

/-- The bucket of one key (empty when the key was never filed). -/
def bucketOf (bs : Buckets) (k : Str) : List RecordId :=
  (alookup bs k).getD []

/-- File `rid` under key `t`, creating the bucket on first use. -/
def bucketInsert : Buckets → Str → RecordId → Buckets
  | [], t, rid => [(t, [rid])]
  | b :: rest, t, rid =>
    if b.1 = t then (b.1, rid :: b.2) :: rest
    else b :: bucketInsert rest t rid

/-- Withdraw `rid` from the bucket of key `t`. -/
def bucketRemove : Buckets → Str → RecordId → Buckets
  | [], _, _ => []
  | b :: rest, t, rid =>
    if b.1 = t then (b.1, b.2.filter (fun x => decide (x ≠ rid))) :: rest
    else b :: bucketRemove rest t rid

/-- File `rid` under every key of `keys`. -/
def insertAll (bs : Buckets) (rid : RecordId) (keys : List Str) : Buckets :=
  keys.foldl (fun acc t => bucketInsert acc t rid) bs

/-- Withdraw `rid` from the bucket of every key of `keys`. -/
def removeAll (bs : Buckets) (rid : RecordId) (keys : List Str) : Buckets :=
  keys.foldl (fun acc t => bucketRemove acc t rid) bs

/-- Withdraw `rid` from every bucket. -/
def removeEverywhere (bs : Buckets) (rid : RecordId) : Buckets :=
  bs.map (fun b => (b.1, b.2.filter (fun x => decide (x ≠ rid))))

theorem alookup_bucketInsert (bs : Buckets) (t : Str) (rid : RecordId) (t2 : Str) :
    alookup (bucketInsert bs t rid) t2 =
      if t2 = t then some (rid :: bucketOf bs t) else alookup bs t2 := by
  induction bs with
  | nil =>
    by_cases h : t2 = t
    · subst h; simp [bucketInsert, alookup, bucketOf]
    · rw [show bucketInsert [] t rid = [(t, [rid])] from rfl, if_neg h]
      show (if t = t2 then some [rid] else alookup [] t2) = alookup [] t2
      rw [if_neg (fun hh => h hh.symm)]
  | cons b rest ih =>
    by_cases hbt : b.1 = t
    · rw [bucketInsert, if_pos hbt]
      by_cases h : t2 = t
      · subst h
        simp [alookup, bucketOf, hbt]
      · have hb2 : b.1 ≠ t2 := fun hh => h (by rw [← hh]; exact hbt)
        simp [alookup, hb2, h]
    · rw [bucketInsert, if_neg hbt]
      by_cases h : t2 = t
      · subst h
        have hb2 : b.1 ≠ t2 := hbt
        simp [alookup, hb2, ih, bucketOf]
      · by_cases hb2 : b.1 = t2
        · simp [alookup, hb2, h]
        · simp [alookup, hb2, ih, h]

theorem mem_bucketOf_insertAll (bs : Buckets) (rid : RecordId) (keys : List Str)
    (t : Str) (x : RecordId) :
    x ∈ bucketOf (insertAll bs rid keys) t ↔
      x ∈ bucketOf bs t ∨ (x = rid ∧ t ∈ keys) := by
  induction keys generalizing bs with
  | nil => simp [insertAll]
  | cons k ks ih =>
    show x ∈ bucketOf (insertAll (bucketInsert bs k rid) rid ks) t ↔ _
    rw [ih]
    by_cases h : t = k
    · subst h
      rw [bucketOf, alookup_bucketInsert, if_pos rfl]
      simp [Or.comm, and_or_left]
      tauto
    · rw [bucketOf, alookup_bucketInsert, if_neg h]
      rw [show (alookup bs t).getD [] = bucketOf bs t from rfl]
      simp [h]

theorem alookup_bucketRemove (bs : Buckets) (t : Str) (rid : RecordId) (t2 : Str) :
    alookup (bucketRemove bs t rid) t2 =
      if t2 = t then (alookup bs t).map (List.filter (fun x => decide (x ≠ rid)))
      else alookup bs t2 := by
  induction bs with
  | nil =>
    by_cases h : t2 = t <;> simp [bucketRemove, alookup, h]
  | cons b rest ih =>
    by_cases hbt : b.1 = t
    · rw [bucketRemove, if_pos hbt]
      by_cases h : t2 = t
      · subst h; simp [alookup, hbt]
      · have hb2 : b.1 ≠ t2 := fun hh => h (by rw [← hh]; exact hbt)
        simp [alookup, hb2, h]
    · rw [bucketRemove, if_neg hbt]
      by_cases h : t2 = t
      · subst h
        simp [alookup, hbt, ih]
      · by_cases hb2 : b.1 = t2
        · simp [alookup, hb2, h]
        · simp [alookup, hb2, ih, h]

theorem mem_bucketOf_removeAll (bs : Buckets) (rid : RecordId) (keys : List Str)
    (t : Str) (x : RecordId) :
    x ∈ bucketOf (removeAll bs rid keys) t ↔
      x ∈ bucketOf bs t ∧ ¬(x = rid ∧ t ∈ keys) := by
  induction keys generalizing bs with
  | nil => simp [removeAll]
  | cons k ks ih =>
    show x ∈ bucketOf (removeAll (bucketRemove bs k rid) rid ks) t ↔ _
    rw [ih]
    by_cases h : t = k
    · subst h
      rw [bucketOf, alookup_bucketRemove, if_pos rfl]
      cases halo : alookup bs t with
      | none => simp [bucketOf, halo]
      | some l =>
        rw [show bucketOf bs t = l by simp [bucketOf, halo]]
        simp [List.mem_filter]
        tauto
    · rw [bucketOf, alookup_bucketRemove, if_neg h]
      rw [show (alookup bs t).getD [] = bucketOf bs t from rfl]
      simp [h]

theorem alookup_removeEverywhere (bs : Buckets) (rid : RecordId) (t : Str) :
    alookup (removeEverywhere bs rid) t =
      (alookup bs t).map (List.filter (fun x => decide (x ≠ rid))) := by
  induction bs with
  | nil => simp [removeEverywhere, alookup]
  | cons b rest ih =>
    show alookup ((b.1, b.2.filter fun x => decide (x ≠ rid)) ::
      removeEverywhere rest rid) t = _
    by_cases h : b.1 = t
    · simp [alookup, h]
    · simp [alookup, h, ih]

theorem not_mem_bucketOf_removeEverywhere (bs : Buckets) (rid : RecordId) (t : Str) :
    rid ∉ bucketOf (removeEverywhere bs rid) t := by
  rw [bucketOf, alookup_removeEverywhere]
  cases alookup bs t with
  | none => simp
  | some l => simp [List.mem_filter]

/-! ## Tag index -/

/-- Modelled from the spec: the Tag Index, an inverted index from tag string
to record identifiers (the cabinet implementation is absent from the
snapshot). -/
structure TagIndex where
  buckets : Buckets
  deriving DecidableEq

/-- Modelled from the spec: `add(record_id, tags)`. -/
def TagIndex.add (idx : TagIndex) (rid : RecordId) (tags : List Str) : TagIndex :=
  ⟨insertAll idx.buckets rid tags⟩

/-- Modelled from the spec: `remove(record_id, tags)`. -/
def TagIndex.remove (idx : TagIndex) (rid : RecordId) (tags : List Str) : TagIndex :=
  ⟨removeAll idx.buckets rid tags⟩

/-- Modelled from the spec: `lookup(tag_set)` with intersection semantics —
a record matches only if it carries every tag of the query set, and the
empty query set matches nothing. -/
def TagIndex.lookup (idx : TagIndex) (q : List Str) : List RecordId :=
  match q with
  | [] => []
  | t :: ts =>
    (bucketOf idx.buckets t).filter
      (fun rid => ts.all (fun t2 => decide (rid ∈ bucketOf idx.buckets t2)))

/-! ## Full-text index -/

/-- Modelled from the spec: tokenization — lowercase, split on
non-alphanumeric boundaries, drop empty tokens. -/
def tokenize (s : Str) : List Str :=
  ((s.map Char.toLower).splitOnP (fun c => !c.isAlphanum)).filter
    (fun t => decide (t ≠ []))

/-- Modelled from the spec: the Full-Text Index, an inverted index from
content token to record identifiers. -/
structure FtIndex where
  buckets : Buckets
  deriving DecidableEq

/-- Modelled from the spec: `index(record_id, title, body)` files the record
under every token of its title and body. -/
def FtIndex.index (idx : FtIndex) (rid : RecordId) (title body : Str) : FtIndex :=
  ⟨insertAll idx.buckets rid (tokenize title ++ tokenize body)⟩

/-- Modelled from the spec: `remove(record_id)` withdraws the record from
every token bucket. -/
def FtIndex.remove (idx : FtIndex) (rid : RecordId) : FtIndex :=
  ⟨removeEverywhere idx.buckets rid⟩

/-- Modelled from the spec: `search(query_terms)` with union semantics — a
record matches if it carries at least one query term; duplicates are
suppressed deterministically. -/
def FtIndex.search (idx : FtIndex) (terms : List Str) : List RecordId :=
  ((terms.map (bucketOf idx.buckets)).flatten).dedup

/-! ## Stored records and indexes built from them -/

/-- Modelled from the spec: one row of a namespace partition's record table,
mirroring the cabinet table definition (id, title, author, url, tags,
locations, timestamps, content body, properties). -/
structure StoredRecord where
  id : RecordId
  title : Str
  author : Str
  url : Str
  tags : List Str
  locations : List Str
  created_at : Nat
  updated_at : Nat
  body : Str
  properties : List (Str × FmValue)
  deriving DecidableEq

/-- The indexed content of a record: tokens of its title and body. -/
def tokensOf (r : StoredRecord) : List Str :=
  tokenize r.title ++ tokenize r.body

/-- The Tag Index rebuilt from a record table. -/
def tagIndexOf (recs : List StoredRecord) : TagIndex :=
  ⟨recs.foldl (fun bs r => insertAll bs r.id r.tags) []⟩

/-- The Full-Text Index rebuilt from a record table. -/
def ftIndexOf (recs : List StoredRecord) : FtIndex :=
  ⟨recs.foldl (fun bs r => insertAll bs r.id (tokensOf r)) []⟩

theorem mem_bucketOf_foldl_insertAll (recs : List StoredRecord)
    (keysOf : StoredRecord → List Str) (bs : Buckets) (t : Str) (x : RecordId) :
    x ∈ bucketOf (recs.foldl (fun b r => insertAll b r.id (keysOf r)) bs) t ↔
      x ∈ bucketOf bs t ∨ ∃ r ∈ recs, r.id = x ∧ t ∈ keysOf r := by
  induction recs generalizing bs with
  | nil => simp
  | cons r rest ih =>
    show x ∈ bucketOf (rest.foldl _ (insertAll bs r.id (keysOf r))) t ↔ _
    rw [ih, mem_bucketOf_insertAll]
    constructor
    · rintro ((hb | ⟨hx, ht⟩) | ⟨r2, hr2, hid, ht⟩)
      · exact Or.inl hb
      · exact Or.inr ⟨r, by simp, hx.symm, ht⟩
      · exact Or.inr ⟨r2, by simp [hr2], hid, ht⟩
    · rintro (hb | ⟨r2, hr2, hid, ht⟩)
      · exact Or.inl (Or.inl hb)
      · rcases List.mem_cons.mp hr2 with h1 | h2
        · exact Or.inl (Or.inr ⟨by rw [← h1, hid], h1 ▸ ht⟩)
        · exact Or.inr ⟨r2, h2, hid, ht⟩

theorem mem_bucketOf_tagIndexOf (recs : List StoredRecord) (t : Str) (x : RecordId) :
    x ∈ bucketOf (tagIndexOf recs).buckets t ↔
      ∃ r ∈ recs, r.id = x ∧ t ∈ r.tags := by
  rw [tagIndexOf]
  rw [mem_bucketOf_foldl_insertAll recs (fun r => r.tags) [] t x]
  simp [bucketOf, alookup]

theorem mem_bucketOf_ftIndexOf (recs : List StoredRecord) (t : Str) (x : RecordId) :
    x ∈ bucketOf (ftIndexOf recs).buckets t ↔
      ∃ r ∈ recs, r.id = x ∧ t ∈ tokensOf r := by
  rw [ftIndexOf]
  rw [mem_bucketOf_foldl_insertAll recs tokensOf [] t x]
  simp [bucketOf, alookup]

theorem id_mem_bucket_iff (recs : List StoredRecord)
    (hnd : (recs.map StoredRecord.id).Nodup) (r : StoredRecord) (hr : r ∈ recs)
    (t : Str) :
    r.id ∈ bucketOf (tagIndexOf recs).buckets t ↔ t ∈ r.tags := by
  rw [mem_bucketOf_tagIndexOf]
  constructor
  · rintro ⟨r2, hr2, hid, ht⟩
    have : r2 = r := List.inj_on_of_nodup_map hnd hr2 hr hid
    exact this ▸ ht
  · intro ht
    exact ⟨r, hr, rfl, ht⟩

/-- C2: Tag Index lookup has intersection (AND) semantics — for a record
table with per-partition-unique ids, a record's id is returned for a
non-empty query tag set exactly when the record carries every query tag. -/
theorem tag_lookup_intersection (recs : List StoredRecord)
    (hnd : (recs.map StoredRecord.id).Nodup) (r : StoredRecord) (hr : r ∈ recs)
    (q : List Str) (hq : q ≠ []) :
    r.id ∈ (tagIndexOf recs).lookup q ↔ ∀ t ∈ q, t ∈ r.tags := by
  cases q with
  | nil => exact absurd rfl hq
  | cons t ts =>
    rw [TagIndex.lookup, List.mem_filter, List.forall_mem_cons]
    rw [id_mem_bucket_iff recs hnd r hr t]
    constructor
    · rintro ⟨h1, h2⟩
      refine ⟨h1, fun t2 ht2 => ?_⟩
      have := List.all_eq_true.mp h2 t2 ht2
      exact (id_mem_bucket_iff recs hnd r hr t2).mp (of_decide_eq_true this)
    · rintro ⟨h1, h2⟩
      refine ⟨h1, List.all_eq_true.mpr fun t2 ht2 => ?_⟩
      exact decide_eq_true ((id_mem_bucket_iff recs hnd r hr t2).mpr (h2 t2 ht2))

/-- Record carrying tags a, b, c, used in index witnesses. -/
def recABC : StoredRecord :=
  { id := "r1".toList, title := "first".toList, author := [], url := []
    tags := ["a".toList, "b".toList, "c".toList], locations := []
    created_at := 1, updated_at := 1, body := [], properties := [] }

/-- Record carrying tags a, c, used in index witnesses. -/
def recAC : StoredRecord :=
  { id := "r2".toList, title := "second".toList, author := [], url := []
    tags := ["a".toList, "c".toList], locations := []
    created_at := 2, updated_at := 2, body := [], properties := [] }

/-- Witness for C2: with query tags a and b, the record tagged a, b, c is
returned and the record tagged a, c is not. -/
theorem tag_lookup_intersection_witness :
    recABC.id ∈ (tagIndexOf [recABC, recAC]).lookup ["a".toList, "b".toList] ∧
    recAC.id ∉ (tagIndexOf [recABC, recAC]).lookup ["a".toList, "b".toList] := by
  constructor
  · exact (tag_lookup_intersection [recABC, recAC] (by decide) recABC (by decide)
      ["a".toList, "b".toList] (by decide)).mpr (by decide)
  · intro hmem
    have := (tag_lookup_intersection [recABC, recAC] (by decide) recAC (by decide)
      ["a".toList, "b".toList] (by decide)).mp hmem
    exact absurd this (by decide)

/-- C7: Tag Index lookup applied to the empty tag set returns the empty
result for every state of the index. -/
theorem tag_lookup_empty_query (idx : TagIndex) : idx.lookup [] = [] := rfl

/-- C3: Full-Text Index search has union (OR) semantics — for a record table
with per-partition-unique ids, a record's id is returned for a non-empty
term list exactly when its indexed content carries at least one query term. -/
theorem fulltext_search_union (recs : List StoredRecord)
    (hnd : (recs.map StoredRecord.id).Nodup) (r : StoredRecord) (hr : r ∈ recs)
    (terms : List Str) (_hterms : terms ≠ []) :
    r.id ∈ (ftIndexOf recs).search terms ↔ ∃ t ∈ terms, t ∈ tokensOf r := by
  rw [FtIndex.search, List.mem_dedup]
  rw [List.mem_flatten]
  constructor
  · rintro ⟨bl, hbl, hmem⟩
    obtain ⟨t, ht, rfl⟩ := List.mem_map.mp hbl
    obtain ⟨r2, hr2, hid, htok⟩ := (mem_bucketOf_ftIndexOf recs t r.id).mp hmem
    have : r2 = r := List.inj_on_of_nodup_map hnd hr2 hr hid
    exact ⟨t, ht, this ▸ htok⟩
  · rintro ⟨t, ht, htok⟩
    refine ⟨bucketOf (ftIndexOf recs).buckets t, List.mem_map_of_mem _ ht, ?_⟩
    exact (mem_bucketOf_ftIndexOf recs t r.id).mpr ⟨r, hr, rfl, htok⟩

/-- Record whose content carries the token csv but not the token sample. -/
def recCsvOnly : StoredRecord :=
  { id := "doc1".toList, title := "data.CSV!".toList, author := [], url := []
    tags := [], locations := [], created_at := 3, updated_at := 3
    body := "only comma separated stuff".toList, properties := [] }

/-- Witness for C3: the record containing only csv matches the two-term
query built from the text "sample csv". -/
theorem fulltext_search_union_witness :
    recCsvOnly.id ∈ (ftIndexOf [recCsvOnly]).search (tokenize "sample csv".toList) := by
  exact (fulltext_search_union [recCsvOnly] (by decide) recCsvOnly (by decide)
    (tokenize "sample csv".toList) (by decide)).mpr (by decide)

/-! ## Catalog Store orchestrator -/

/-- Modelled from the spec: the three-level namespace triple
(organization, group, user) addressing one storage partition. -/
structure Namespace where
  org : Str
  group : Str
  user : Str
  deriving DecidableEq

/-- Modelled from the spec: a namespace segment is validated only for
non-emptiness and absence of path-separator characters. -/
def validSegment (x : Str) : Bool :=
  decide (x ≠ [] ∧ '/' ∉ x)

/-- Modelled from the spec: a namespace is valid when all three segments are. -/
def validNamespace (ns : Namespace) : Bool :=
  validSegment ns.org && validSegment ns.group && validSegment ns.user

/-- Modelled from the spec: one namespace partition — its record table and
the two indexes it owns. -/
structure Partition where
  records : List StoredRecord
  tagIdx : TagIndex
  ftIdx : FtIndex
  deriving DecidableEq

/-- The empty partition, created lazily on first write. -/
def Partition.empty : Partition :=
  ⟨[], ⟨[]⟩, ⟨[]⟩⟩

/-- Modelled from the spec: the store maps namespace triples to partitions. -/
abbrev Store := List (Namespace × Partition)

/-- Resolve a namespace to its partition, if it exists. -/
def getPartition (s : Store) (ns : Namespace) : Option Partition :=
  alookup s ns

/-- Install (or replace) the partition of a namespace. -/
def setPartition : Store → Namespace → Partition → Store
  | [], ns, p => [(ns, p)]
  | e :: rest, ns, p =>
    if e.1 = ns then (ns, p) :: rest else e :: setPartition rest ns p

/-- Modelled from the spec: the error taxonomy of the Catalog Store. -/
inductive StoreError where
  | MalformedDocument
  | InvalidNamespace
  | DuplicateId
  | NotFound
  | StoreInconsistent
  deriving DecidableEq

instance instDecEqExcept {ε α : Type} [DecidableEq ε] [DecidableEq α] :
    DecidableEq (Except ε α) := fun x y =>
  match x, y with
  | .ok a, .ok b =>
    if h : a = b then isTrue (by rw [h])
    else isFalse (fun hh => h (Except.ok.inj hh))
  | .error a, .error b =>
    if h : a = b then isTrue (by rw [h])
    else isFalse (fun hh => h (Except.error.inj hh))
  | .ok _, .error _ => isFalse (fun hh => Except.noConfusion hh)
  | .error _, .ok _ => isFalse (fun hh => Except.noConfusion hh)

/-- Modelled from the spec: `create(namespace, record)` — validates the
namespace, resolves the partition (creating it lazily), fails with
`DuplicateId` when the id already exists in that partition, and otherwise
persists the record and files it in both indexes. -/
def Store.create (s : Store) (ns : Namespace) (r : StoredRecord) :
    Except StoreError Store :=
  if validNamespace ns = false then .error .InvalidNamespace
  else
    let p := (getPartition s ns).getD Partition.empty
    if p.records.any (fun r2 => decide (r2.id = r.id)) then .error .DuplicateId
    else .ok (setPartition s ns
      { records := r :: p.records
        tagIdx := p.tagIdx.add r.id r.tags
        ftIdx := p.ftIdx.index r.id r.title r.body })

/-- Modelled from the spec: `get(namespace, id)` fails with `NotFound` when
the partition or the record is absent. -/
def Store.get (s : Store) (ns : Namespace) (rid : RecordId) :
    Except StoreError StoredRecord :=
  match getPartition s ns with
  | none => .error .NotFound
  | some p =>
    match p.records.find? (fun r => decide (r.id = rid)) with
    | none => .error .NotFound
    | some r => .ok r

/-- Modelled from the spec: `delete(namespace, id)` removes the record and
all of its index entries, failing with `NotFound` when the record is absent. -/
def Store.delete (s : Store) (ns : Namespace) (rid : RecordId) :
    Except StoreError Store :=
  match getPartition s ns with
  | none => .error .NotFound
  | some p =>
    match p.records.find? (fun r => decide (r.id = rid)) with
    | none => .error .NotFound
    | some r => .ok (setPartition s ns
      { records := p.records.filter (fun r2 => decide (r2.id ≠ rid))
        tagIdx := p.tagIdx.remove rid r.tags
        ftIdx := p.ftIdx.remove rid })

/-- Insert a record into a list kept sorted by creation time, newest first. -/
def insertDesc (r : StoredRecord) : List StoredRecord → List StoredRecord
  | [] => [r]
  | x :: xs =>
    if x.created_at ≤ r.created_at then r :: x :: xs else x :: insertDesc r xs

/-- Sort a record table by `created_at` descending (newest first). -/
def sortByCreatedDesc : List StoredRecord → List StoredRecord
  | [] => []
  | r :: rest => insertDesc r (sortByCreatedDesc rest)

/-- Modelled from the spec: `search(namespace_scope, tag_filter?, text_query?)`
— with both filters the Tag Index result restricts the relevance-ordered
full-text result; with one filter that index alone is used; with neither,
all records in scope, newest first. -/
def Store.search (s : Store) (ns : Namespace) (tagFilter : Option (List Str))
    (textQuery : Option Str) : List StoredRecord :=
  match getPartition s ns with
  | none => []
  | some p =>
    match tagFilter, textQuery with
    | none, none => sortByCreatedDesc p.records
    | some tags, none =>
      let ids := p.tagIdx.lookup tags
      p.records.filter (fun r => decide (r.id ∈ ids))
    | none, some q =>
      (p.ftIdx.search (tokenize q)).filterMap
        (fun i => p.records.find? (fun r => decide (r.id = i)))
    | some tags, some q =>
      let ids := p.tagIdx.lookup tags
      ((p.ftIdx.search (tokenize q)).filter (fun i => decide (i ∈ ids))).filterMap
        (fun i => p.records.find? (fun r => decide (r.id = i)))

/-- Modelled from the spec: a partition is coherent when its ids are unique
and each index's buckets agree exactly with the record table. -/
def Coherent (p : Partition) : Prop :=
  (p.records.map StoredRecord.id).Nodup ∧
  (∀ x t, x ∈ bucketOf p.tagIdx.buckets t ↔
    ∃ r ∈ p.records, r.id = x ∧ t ∈ r.tags) ∧
  (∀ x t, x ∈ bucketOf p.ftIdx.buckets t ↔
    ∃ r ∈ p.records, r.id = x ∧ t ∈ tokensOf r)

theorem coherent_ofRecords (recs : List StoredRecord)
    (hnd : (recs.map StoredRecord.id).Nodup) :
    Coherent ⟨recs, tagIndexOf recs, ftIndexOf recs⟩ :=
  ⟨hnd, fun x t => mem_bucketOf_tagIndexOf recs t x,
    fun x t => mem_bucketOf_ftIndexOf recs t x⟩

theorem getPartition_setPartition (s : Store) (ns ns2 : Namespace) (p : Partition) :
    getPartition (setPartition s ns p) ns2 =
      if ns2 = ns then some p else getPartition s ns2 := by
  induction s with
  | nil =>
    by_cases h : ns2 = ns
    · subst h; simp [setPartition, getPartition, alookup]
    · rw [show setPartition [] ns p = [(ns, p)] from rfl, if_neg h]
      show (if ns = ns2 then some p else alookup [] ns2) = getPartition [] ns2
      rw [if_neg (fun hh => h hh.symm)]
      rfl
  | cons e rest ih =>
    by_cases hbt : e.1 = ns
    · rw [setPartition, if_pos hbt]
      by_cases h : ns2 = ns
      · subst h; simp [getPartition, alookup]
      · have hb2 : e.1 ≠ ns2 := fun hh => h (by rw [← hh]; exact hbt)
        have hns : ns ≠ ns2 := fun hh => h hh.symm
        simp [getPartition, alookup, hns, hb2, h]
    · rw [setPartition, if_neg hbt]
      by_cases h : ns2 = ns
      · subst h
        rw [if_pos rfl]
        show (if e.1 = ns2 then some e.2
          else getPartition (setPartition rest ns2 p) ns2) = some p
        rw [if_neg hbt, ih, if_pos rfl]
      · by_cases hb2 : e.1 = ns2
        · simp [getPartition, alookup, hb2, h]
        · have hrw : getPartition (e :: rest) ns2 = getPartition rest ns2 := by
            show (if e.1 = ns2 then some e.2 else getPartition rest ns2) = _
            rw [if_neg hb2]
          have hrw2 : getPartition (e :: setPartition rest ns p) ns2 =
              getPartition (setPartition rest ns p) ns2 := by
            show (if e.1 = ns2 then some e.2
              else getPartition (setPartition rest ns p) ns2) = _
            rw [if_neg hb2]
          rw [hrw, hrw2, ih]

/-- C4: after a successful `delete(namespace, id)` the record is gone — `get`
fails with `NotFound` and the id is absent from every tag bucket and every
full-text bucket of the partition; deleting an absent id fails with
`NotFound`. -/
theorem delete_completeness (s : Store) (ns : Namespace) (rid : RecordId)
    (p : Partition) (hp : getPartition s ns = some p) (hc : Coherent p) :
    (∀ s2, Store.delete s ns rid = .ok s2 →
      Store.get s2 ns rid = .error .NotFound ∧
      ∀ p2, getPartition s2 ns = some p2 →
        (∀ t, rid ∉ bucketOf p2.tagIdx.buckets t) ∧
        (∀ t, rid ∉ bucketOf p2.ftIdx.buckets t)) ∧
    (Store.get s ns rid = .error .NotFound →
      Store.delete s ns rid = .error .NotFound) := by
  obtain ⟨hnd, htag, hft⟩ := hc
  cases hfind : p.records.find? (fun r => decide (r.id = rid)) with
  | none =>
    constructor
    · intro s2 hdel
      rw [Store.delete, hp] at hdel
      simp only [hfind] at hdel
      exact absurd hdel (by simp)
    · intro _
      rw [Store.delete, hp]
      simp only [hfind]
  | some r =>
    have hp1 := List.find?_some hfind
    simp only [decide_eq_true_eq] at hp1
    have hrid : r.id = rid := hp1
    have hrmem : r ∈ p.records := List.mem_of_find?_eq_some hfind
    constructor
    · intro s2 hdel
      rw [Store.delete, hp] at hdel
      simp only [hfind] at hdel
      have hs2 : s2 = setPartition s ns
          { records := p.records.filter (fun r2 => decide (r2.id ≠ rid))
            tagIdx := p.tagIdx.remove rid r.tags
            ftIdx := p.ftIdx.remove rid } := by
        cases hdel
        rfl
      subst hs2
      have hget2 : getPartition (setPartition s ns
          { records := p.records.filter (fun r2 => decide (r2.id ≠ rid))
            tagIdx := p.tagIdx.remove rid r.tags
            ftIdx := p.ftIdx.remove rid }) ns = some
          { records := p.records.filter (fun r2 => decide (r2.id ≠ rid))
            tagIdx := p.tagIdx.remove rid r.tags
            ftIdx := p.ftIdx.remove rid } := by
        rw [getPartition_setPartition, if_pos rfl]
      constructor
      · rw [Store.get, hget2]
        have hnone : (p.records.filter (fun r2 => decide (r2.id ≠ rid))).find?
            (fun r2 => decide (r2.id = rid)) = none := by
          apply List.find?_eq_none.mpr
          intro x hx hdec
          have hne : x.id ≠ rid := of_decide_eq_true (List.mem_filter.mp hx).2
          exact hne (of_decide_eq_true hdec)
        simp only [hnone]
      · intro p2 hp2
        rw [hget2] at hp2
        cases hp2
        constructor
        · intro t hmem
          have h2 := (mem_bucketOf_removeAll p.tagIdx.buckets rid r.tags t rid).mp hmem
          obtain ⟨r2, hr2, hid2, ht2⟩ := (htag rid t).mp h2.1
          have : r2 = r := List.inj_on_of_nodup_map hnd hr2 hrmem (hid2.trans hrid.symm)
          exact h2.2 ⟨rfl, this ▸ ht2⟩
        · intro t
          exact not_mem_bucketOf_removeEverywhere p.ftIdx.buckets rid t
    · intro hget
      rw [Store.get, hp] at hget
      simp only [hfind] at hget
      exact absurd hget (by simp)

/-- Namespace triple used in store witnesses. -/
def nsEx : Namespace :=
  ⟨"orgA".toList, "g".toList, "u".toList⟩

/-- One-record partition used in the delete witness. -/
def pEx : Partition :=
  ⟨[recABC], tagIndexOf [recABC], ftIndexOf [recABC]⟩

/-- One-partition store used in the delete witness. -/
def storeEx : Store := [(nsEx, pEx)]

/-- Partition left behind by deleting the only record of `pEx`. -/
def pEx2 : Partition :=
  { records := []
    tagIdx := pEx.tagIdx.remove "r1".toList recABC.tags
    ftIdx := pEx.ftIdx.remove "r1".toList }

/-- Store left behind by the witnessed delete. -/
def storeEx2 : Store := [(nsEx, pEx2)]

/-- Witness for C4: deleting the record succeeds, a following get fails with
`NotFound`, and the id has vanished from the buckets it occupied. -/
theorem delete_completeness_witness :
    Store.delete storeEx nsEx "r1".toList = .ok storeEx2 ∧
    Store.get storeEx2 nsEx "r1".toList = .error .NotFound ∧
    "r1".toList ∉ bucketOf pEx2.tagIdx.buckets "a".toList ∧
    "r1".toList ∉ bucketOf pEx2.ftIdx.buckets "first".toList := by
  have h := (delete_completeness storeEx nsEx "r1".toList pEx (by decide)
    ⟨by decide, fun x t => mem_bucketOf_tagIndexOf [recABC] t x,
      fun x t => mem_bucketOf_ftIndexOf [recABC] t x⟩).1 storeEx2 (by decide)
  refine ⟨by decide, h.1, ?_, ?_⟩
  · exact ((h.2 pEx2 (by decide)).1 "a".toList)
  · exact ((h.2 pEx2 (by decide)).2 "first".toList)

/-- Record table of the partition a namespace currently resolves to. -/
def partitionRecords (s : Store) (ns : Namespace) : List StoredRecord :=
  ((getPartition s ns).getD Partition.empty).records

/-- Decide whether a store operation succeeded. -/
def okE {ε α : Type} : Except ε α → Bool
  | .ok _ => true
  | .error _ => false

/-- C5: record ids are unique per namespace partition, not globally —
creating id X in one partition and the same id in a distinct partition both
succeed, while creating an id that already exists in the same partition
fails with `DuplicateId`. -/
theorem id_unique_per_partition (s : Store) (ns1 ns2 : Namespace)
    (r1 r2 r3 : StoredRecord) (hns : ns1 ≠ ns2) (_hid : r2.id = r1.id)
    (hid3 : r3.id = r1.id)
    (hv1 : validNamespace ns1 = true) (hv2 : validNamespace ns2 = true)
    (h1 : ∀ r ∈ partitionRecords s ns1, r.id ≠ r1.id)
    (h2 : ∀ r ∈ partitionRecords s ns2, r.id ≠ r2.id) :
    okE (Store.create s ns1 r1) = true ∧
    ∀ s2, Store.create s ns1 r1 = .ok s2 →
      okE (Store.create s2 ns2 r2) = true ∧
      Store.create s2 ns1 r3 = .error .DuplicateId := by
  have hany1 : (((getPartition s ns1).getD Partition.empty).records.any
      (fun x => decide (x.id = r1.id))) = false := by
    rw [List.any_eq_false]
    intro x hx hdec
    exact h1 x hx (of_decide_eq_true hdec)
  have hok1 : Store.create s ns1 r1 = .ok (setPartition s ns1
      { records := r1 :: ((getPartition s ns1).getD Partition.empty).records
        tagIdx := ((getPartition s ns1).getD Partition.empty).tagIdx.add r1.id r1.tags
        ftIdx := ((getPartition s ns1).getD Partition.empty).ftIdx.index
          r1.id r1.title r1.body }) := by
    rw [Store.create, if_neg (by rw [hv1]; simp)]
    simp only [hany1, if_neg Bool.false_ne_true]
  refine ⟨by rw [hok1]; rfl, ?_⟩
  intro s2 hs2
  rw [hok1] at hs2
  cases hs2
  have hget12 : getPartition (setPartition s ns1
      { records := r1 :: ((getPartition s ns1).getD Partition.empty).records
        tagIdx := ((getPartition s ns1).getD Partition.empty).tagIdx.add r1.id r1.tags
        ftIdx := ((getPartition s ns1).getD Partition.empty).ftIdx.index
          r1.id r1.title r1.body }) ns2 = getPartition s ns2 := by
    rw [getPartition_setPartition, if_neg (fun hh => hns hh.symm)]
  constructor
  · have hany2 : (((getPartition s ns2).getD Partition.empty).records.any
        (fun x => decide (x.id = r2.id))) = false := by
      rw [List.any_eq_false]
      intro x hx hdec
      exact h2 x hx (of_decide_eq_true hdec)
    rw [Store.create, if_neg (by rw [hv2]; simp), hget12]
    simp only [hany2, if_neg Bool.false_ne_true]
    rfl
  · have hget11 : getPartition (setPartition s ns1
        { records := r1 :: ((getPartition s ns1).getD Partition.empty).records
          tagIdx := ((getPartition s ns1).getD Partition.empty).tagIdx.add r1.id r1.tags
          ftIdx := ((getPartition s ns1).getD Partition.empty).ftIdx.index
            r1.id r1.title r1.body }) ns1 = some
        { records := r1 :: ((getPartition s ns1).getD Partition.empty).records
          tagIdx := ((getPartition s ns1).getD Partition.empty).tagIdx.add r1.id r1.tags
          ftIdx := ((getPartition s ns1).getD Partition.empty).ftIdx.index
            r1.id r1.title r1.body } := by
      rw [getPartition_setPartition, if_pos rfl]
    rw [Store.create, if_neg (by rw [hv1]; simp), hget11]
    have hany3 : ((r1 :: ((getPartition s ns1).getD Partition.empty).records).any
        (fun x => decide (x.id = r3.id))) = true := by
      rw [List.any_eq_true]
      exact ⟨r1, by simp, decide_eq_true hid3.symm⟩
    simp [Option.getD_some, hany3]

/-- Second namespace triple, differing from `nsEx` in the organization. -/
def nsExB : Namespace :=
  ⟨"orgB".toList, "g".toList, "u".toList⟩

/-- First record with caller-supplied id X. -/
def recX1 : StoredRecord :=
  { id := "X".toList, title := "t1".toList, author := [], url := []
    tags := [], locations := [], created_at := 10, updated_at := 10
    body := [], properties := [] }

/-- Second record with the same caller-supplied id X. -/
def recX2 : StoredRecord :=
  { id := "X".toList, title := "t2".toList, author := [], url := []
    tags := [], locations := [], created_at := 11, updated_at := 11
    body := [], properties := [] }

/-- Partition produced by creating `recX1` in an empty store. -/
def pX1 : Partition :=
  { records := [recX1]
    tagIdx := Partition.empty.tagIdx.add recX1.id recX1.tags
    ftIdx := Partition.empty.ftIdx.index recX1.id recX1.title recX1.body }

/-- Store produced by creating `recX1` under `nsEx` in an empty store. -/
def storeX1 : Store := [(nsEx, pX1)]

/-- Witness for C5: id X is created in (orgA, g, u), then in (orgB, g, u),
both successfully; creating id X again in (orgA, g, u) fails with
`DuplicateId`. -/
theorem id_unique_per_partition_witness :
    okE (Store.create [] nsEx recX1) = true ∧
    okE (Store.create storeX1 nsExB recX2) = true ∧
    Store.create storeX1 nsEx recX1 = .error .DuplicateId := by
  have h := id_unique_per_partition [] nsEx nsExB recX1 recX2 recX1
    (by decide) (by decide) rfl (by decide) (by decide) (by decide) (by decide)
  exact ⟨h.1, (h.2 storeX1 (by decide)).1, (h.2 storeX1 (by decide)).2⟩

/-! ## Newest-first ordering of unfiltered search -/

/-- Newest-first comparison on stored records. -/
def recDesc (a b : StoredRecord) : Prop :=
  b.created_at ≤ a.created_at

theorem insertDesc_perm (r : StoredRecord) (l : List StoredRecord) :
    (insertDesc r l).Perm (r :: l) := by
  induction l with
  | nil => exact List.Perm.refl _
  | cons x xs ih =>
    rw [insertDesc]
    by_cases h : x.created_at ≤ r.created_at
    · rw [if_pos h]
    · rw [if_neg h]
      exact (ih.cons x).trans (List.Perm.swap r x xs)

theorem insertDesc_pairwise (r : StoredRecord) (l : List StoredRecord)
    (h : l.Pairwise recDesc) : (insertDesc r l).Pairwise recDesc := by
  induction l with
  | nil => simp [insertDesc, List.pairwise_cons]
  | cons x xs ih =>
    rw [List.pairwise_cons] at h
    rw [insertDesc]
    by_cases hle : x.created_at ≤ r.created_at
    · rw [if_pos hle]
      rw [List.pairwise_cons]
      constructor
      · intro y hy
        rcases List.mem_cons.mp hy with rfl | hmem
        · exact hle
        · exact le_trans (h.1 y hmem) hle
      · rw [List.pairwise_cons]
        exact h
    · rw [if_neg hle]
      rw [List.pairwise_cons]
      constructor
      · intro y hy
        have hy2 : y ∈ r :: xs := (insertDesc_perm r xs).mem_iff.mp hy
        rcases List.mem_cons.mp hy2 with rfl | hmem
        · exact le_of_not_le hle
        · exact h.1 y hmem
      · exact ih h.2

theorem sortByCreatedDesc_perm (l : List StoredRecord) :
    (sortByCreatedDesc l).Perm l := by
  induction l with
  | nil => exact List.Perm.refl _
  | cons r rest ih =>
    exact (insertDesc_perm r (sortByCreatedDesc rest)).trans (ih.cons r)

theorem sortByCreatedDesc_pairwise (l : List StoredRecord) :
    (sortByCreatedDesc l).Pairwise recDesc := by
  induction l with
  | nil => simp [sortByCreatedDesc]
  | cons r rest ih => exact insertDesc_pairwise r (sortByCreatedDesc rest) ih

/-- C6: search with neither a tag filter nor a text query returns all records
in scope ordered by `created_at` descending; in particular a later-created
record precedes an earlier-created one. -/
theorem search_no_filters_newest_first (s : Store) (ns : Namespace)
    (p : Partition) (hp : getPartition s ns = some p) (r1 r2 : StoredRecord)
    (hr1 : r1 ∈ p.records) (hr2 : r2 ∈ p.records)
    (hlt : r2.created_at < r1.created_at) :
    (Store.search s ns none none).Perm p.records ∧
    (Store.search s ns none none).Pairwise recDesc ∧
    ∃ (i j : Nat) (hi : i < (Store.search s ns none none).length)
      (hj : j < (Store.search s ns none none).length),
      i < j ∧ (Store.search s ns none none)[i] = r1 ∧
        (Store.search s ns none none)[j] = r2 := by
  have hout : Store.search s ns none none = sortByCreatedDesc p.records := by
    rw [Store.search, hp]
  rw [hout]
  refine ⟨sortByCreatedDesc_perm p.records, sortByCreatedDesc_pairwise p.records, ?_⟩
  have hm1 : r1 ∈ sortByCreatedDesc p.records :=
    (sortByCreatedDesc_perm p.records).mem_iff.mpr hr1
  have hm2 : r2 ∈ sortByCreatedDesc p.records :=
    (sortByCreatedDesc_perm p.records).mem_iff.mpr hr2
  obtain ⟨i, hi, hieq⟩ := List.mem_iff_getElem.mp hm1
  obtain ⟨j, hj, hjeq⟩ := List.mem_iff_getElem.mp hm2
  rcases Nat.lt_trichotomy i j with hij | hij | hij
  · exact ⟨i, j, hi, hj, hij, hieq, hjeq⟩
  · subst hij
    have : r1 = r2 := hieq.symm.trans hjeq
    rw [this] at hlt
    exact absurd hlt (lt_irrefl _)
  · have hs := sortByCreatedDesc_pairwise p.records
    have hrel := List.pairwise_iff_getElem.mp hs j i hj hi hij
    rw [hieq, hjeq] at hrel
    have h2 : r1.created_at ≤ r2.created_at := hrel
    omega

/-- Two-record partition used in the search witness: `recAC` is newer. -/
def pC6 : Partition :=
  ⟨[recABC, recAC], ⟨[]⟩, ⟨[]⟩⟩

/-- One-partition store used in the search witness. -/
def storeC6 : Store := [(nsEx, pC6)]

/-- Witness for C6: with both records in scope, the unfiltered search result
is a newest-first permutation of the record table. -/
theorem search_no_filters_newest_first_witness :
    (Store.search storeC6 nsEx none none).Perm pC6.records ∧
    (Store.search storeC6 nsEx none none).Pairwise recDesc := by
  have h := search_no_filters_newest_first storeC6 nsEx pC6 (by decide)
    recAC recABC (by decide) (by decide) (by decide)
  exact ⟨h.1, h.2.1⟩

/-! ## Workdesk: the browser-side DuckDB service

Embeds the `DuckDBService` TypeScript class: the nullable database and
connection handles, the guard every query method performs on the connection,
and `close`, which nulls both handles.  Queries actually sent to the engine
are modelled as a log. -/

/-- State of the `DuckDBService` singleton: the two nullable handles, the
log of queries issued to the connection, and the file buffers registered on
the database. -/
structure DuckDBService where
  db : Option Nat
  conn : Option Nat
  issued : List String
  registered : List String
  deriving DecidableEq

/-- The constructor state: both handles null. -/
def DuckDBService.fresh : DuckDBService :=
  ⟨none, none, [], []⟩

/-- The `initialize` method (named `init` here): a no-op when the database
handle exists, otherwise it creates the database and the connection. -/
def DuckDBService.init (s : DuckDBService) : DuckDBService :=
  if s.db.isSome then s
  else { s with db := some 0, conn := some 0 }

/-- The `executeQuery` method: fails when the connection handle is null,
otherwise issues the query. -/
def DuckDBService.executeQuery (s : DuckDBService) (q : String) :
    Except String Unit × DuckDBService :=
  match s.conn with
  | none => (.error "Database not initialized", s)
  | some _ => (.ok (), { s with issued := s.issued ++ [q] })

/-- The query text `loadCSV` builds for a file and table name. -/
def createTableQuery (fileName tableName : String) : String :=
  "CREATE TABLE " ++ tableName ++ " AS SELECT * FROM read_csv_auto('" ++
    fileName ++ "')"

/-- The `loadCSV` method: fails when the connection handle is null, otherwise
registers the file buffer on the database and issues the create-table query. -/
def DuckDBService.loadCSV (s : DuckDBService) (fileName tableName : String) :
    Except String Unit × DuckDBService :=
  match s.conn with
  | none => (.error "Database not initialized", s)
  | some _ =>
    (.ok (), { s with
      registered := s.registered ++ [fileName]
      issued := s.issued ++ [createTableQuery fileName tableName] })

/-- The query text `getTables` issues. -/
def getTablesQuery : String :=
  "SELECT table_schema, table_name, table_type FROM information_schema.tables " ++
    "WHERE table_schema NOT IN ('information_schema') " ++
    "ORDER BY table_schema, table_name"

/-- The `getTables` method: fails when the connection handle is null,
otherwise issues the catalog query. -/
def DuckDBService.getTables (s : DuckDBService) :
    Except String Unit × DuckDBService :=
  match s.conn with
  | none => (.error "Database not initialized", s)
  | some _ => (.ok (), { s with issued := s.issued ++ [getTablesQuery] })

/-- The `getTableSchema` method: fails when the connection handle is null,
otherwise issues a DESCRIBE query. -/
def DuckDBService.getTableSchema (s : DuckDBService) (tableName : String) :
    Except String Unit × DuckDBService :=
  match s.conn with
  | none => (.error "Database not initialized", s)
  | some _ =>
    (.ok (), { s with issued := s.issued ++ ["DESCRIBE " ++ tableName] })

/-- The `close` method: closes the connection and terminates the database,
nulling both handles. -/
def DuckDBService.close (s : DuckDBService) : DuckDBService :=
  { s with db := none, conn := none }

/-- C9: every query method of `DuckDBService` fails with the error
"Database not initialized" and issues no query whenever the connection
handle is null; after `close` both handles are null, so every subsequent
query method fails this way, until `init` restores the connection. -/
theorem duckdb_query_guard :
    (∀ s q, s.conn = none →
      DuckDBService.executeQuery s q = (.error "Database not initialized", s)) ∧
    (∀ s f t, s.conn = none →
      DuckDBService.loadCSV s f t = (.error "Database not initialized", s)) ∧
    (∀ s, s.conn = none →
      DuckDBService.getTables s = (.error "Database not initialized", s)) ∧
    (∀ s t, s.conn = none →
      DuckDBService.getTableSchema s t = (.error "Database not initialized", s)) ∧
    (∀ s, (DuckDBService.close s).conn = none ∧ (DuckDBService.close s).db = none) ∧
    (∀ s q, DuckDBService.executeQuery (DuckDBService.close s) q =
      (.error "Database not initialized", DuckDBService.close s)) ∧
    (∀ s, (DuckDBService.init (DuckDBService.close s)).conn = some 0) := by
  refine ⟨fun s q h => ?_, fun s f t h => ?_, fun s h => ?_, fun s t h => ?_,
    fun s => ⟨rfl, rfl⟩, fun s q => ?_, fun s => ?_⟩
  · rw [DuckDBService.executeQuery, h]
  · rw [DuckDBService.loadCSV, h]
  · rw [DuckDBService.getTables, h]
  · rw [DuckDBService.getTableSchema, h]
  · rfl
  · rfl

/-- Witness for C9 at the constructor state: a query on a never-opened (or
closed) service fails with the guard error and leaves the state unchanged. -/
theorem duckdb_query_guard_witness :
    DuckDBService.executeQuery DuckDBService.fresh "SELECT 1" =
      (.error "Database not initialized", DuckDBService.fresh) ∧
    DuckDBService.getTables DuckDBService.fresh =
      (.error "Database not initialized", DuckDBService.fresh) := by
  have h := duckdb_query_guard
  exact ⟨h.1 DuckDBService.fresh "SELECT 1" rfl, h.2.2.1 DuckDBService.fresh rfl⟩

/-! ## Workdesk: the data-import page

Embeds `handleDrop` and `handleFileInput` of the import route: dropping
filters to CSV files (by MIME type or file-name suffix) before appending to
the uploaded-files list, while the file-picker input appends everything. -/

/-- The two fields of a browser `File` object the import page reads. -/
structure JsFile where
  name : String
  type : String
  deriving DecidableEq

/-- The CSV acceptance test of `handleDrop`: MIME type `text/csv` or a name
ending in `.csv`. -/
def isCsvFile (f : JsFile) : Bool :=
  f.type == "text/csv" || f.name.endsWith ".csv"

/-- The `handleDrop` handler: keep only the CSV files of the drop and, when
any remain, append them to the uploaded-files list. -/
def handleDrop (prev dropped : List JsFile) : List JsFile :=
  let files := dropped.filter isCsvFile
  if files.length > 0 then prev ++ files else prev

/-- The `handleFileInput` handler: append every chosen file, unfiltered. -/
def handleFileInput (prev chosen : List JsFile) : List JsFile :=
  prev ++ chosen

/-- C10: a drop appends exactly the dropped files accepted by the CSV test
(MIME type `text/csv` or name ending in `.csv`), in order, leaving existing
entries unchanged — so a drop with no qualifying file leaves the list as it
was — while the file-picker input appends every chosen file unfiltered. -/
theorem import_page_file_filtering :
    (∀ f, isCsvFile f = true ↔
      (f.type = "text/csv" ∨ f.name.endsWith ".csv" = true)) ∧
    (∀ prev dropped, handleDrop prev dropped = prev ++ dropped.filter isCsvFile) ∧
    (∀ prev chosen, handleFileInput prev chosen = prev ++ chosen) := by
  refine ⟨fun f => ?_, fun prev dropped => ?_, fun prev chosen => rfl⟩
  · rw [isCsvFile, Bool.or_eq_true, beq_iff_eq]
  · show (if (dropped.filter isCsvFile).length > 0
      then prev ++ dropped.filter isCsvFile else prev) = _
    by_cases h : (dropped.filter isCsvFile).length > 0
    · rw [if_pos h]
    · rw [if_neg h]
      have h0 : dropped.filter isCsvFile = [] :=
        List.length_eq_zero.mp (by omega)
      rw [h0, List.append_nil]

end Catalyzer
